import Mathlib

/-!
Verification of the hqg-backtester job-execution pipeline.

Shallow embedding of the Python sources under `src/src/`:
floats are modelled as `ℚ` (no NaN/Inf arise in the fragments under study),
`datetime` values at day granularity as `ℤ`, Python dicts as association
lists in insertion order, and fallible code as `Except`.
-/

/-- Association-list lookup, modelling Python `dict.__getitem__` /
`dict.get` (first binding wins; the embedded dicts have unique keys). -/
def alookup {α : Type} : List (String × α) → String → Option α
  | [], _ => none
  | (k, v) :: rest, s => if k = s then some v else alookup rest s

/-- Update the value bound to key `s` (models `d[s] = v` for an existing key). -/
def aupdate {α : Type} (l : List (String × α)) (s : String) (v : α) :
    List (String × α) :=
  l.map (fun p => if p.1 = s then (s, v) else p)

/-! ## `src/src/models/request.py` — `BacktestRequest.validate_code` (C8) -/

/-- Embedded `BacktestRequest` (pydantic model in `src/src/models/request.py`). -/
structure BacktestRequest where
  strategy_code : String
  name : Option String
  start_date : ℤ
  end_date : ℤ
  initial_capital : ℚ
  commission : ℚ
  slippage : ℚ

/-- The pydantic field validators of `BacktestRequest`
(`validate_dates`, `validate_capital`, and the `ge`/`le` field bounds). -/
def BacktestRequest.valid (r : BacktestRequest) : Prop :=
  r.start_date < r.end_date ∧ 0 < r.initial_capital ∧
    0 ≤ r.commission ∧ 0 ≤ r.slippage ∧ r.slippage ≤ 1

instance (r : BacktestRequest) : Decidable r.valid := by
  unfold BacktestRequest.valid; infer_instance

/-- `BacktestRequest.validate_code`: reject strategy code whose UTF-8
encoding exceeds `max_bytes = 1_000_000` bytes. -/
def validate_code (v : String) : Except String String :=
  let max_bytes : Nat := 1000000
  let num_bytes : Nat := v.utf8ByteSize
  if num_bytes > max_bytes then .error "Strategy code too large" else .ok v

/-- A string of `n` copies of the one-byte character `a`. -/
def repChar (n : Nat) : String := String.mk (List.replicate n 'a')

/-! ## `src/src/services/data_provider/yf_provider.py` — cache coverage (C7) -/

/-- What `_read_cache` exposes of a symbol cache: the min and max index
dates of a non-empty cached frame (`None` for missing/empty/corrupt). -/
structure CacheView where
  cacheMin : ℤ
  cacheMax : ℤ

/-- Process-wide cache state: per symbol, the cached date range if any. -/
def CacheState : Type := String → Option CacheView

/-- `_DEFAULT_HISTORY_START = datetime(2000, 1, 1)`, as days since 1970-01-01. -/
def DEFAULT_HISTORY_START : ℤ := 10957

/-- `YFDataProvider._cache_covers`: the cache covers `[fetch_start, fetch_end]`
iff the cached max reaches `fetch_end` and either the requested start is at or
after the default floor or the cached min starts within 30 days of it. -/
def cache_covers (cache : CacheState) (symbol : String)
    (fetch_start fetch_end : ℤ) : Bool :=
  match cache symbol with
  | none => false
  | some c =>
      let start_covered : Bool :=
        if fetch_start ≥ DEFAULT_HISTORY_START then true
        else decide (c.cacheMin ≤ fetch_start + 30)
      let end_covered : Bool := decide (c.cacheMax ≥ fetch_end)
      end_covered && start_covered

/-- `get_data`, lockless pre-scan: the probable misses among `symbols`,
read against the unlocked cache state. -/
def probable_misses (cache : CacheState) (symbols : List String)
    (fs fe : ℤ) : List String :=
  symbols.filter (fun s => ¬ cache_covers cache s fs fe)

/-- `sorted(set(probable_misses))` in `get_data`. -/
def sorted_misses (pm : List String) : List String :=
  pm.eraseDups.mergeSort (fun a b => a ≤ b)

/-- `get_data`, re-check under the per-symbol locks: the confirmed misses,
read against the (possibly concurrently updated) cache state `cacheL`.
Exactly this list is passed to `_fetch_from_yf`. -/
def confirmed_misses (cacheL : CacheState) (sm : List String)
    (fs fe : ℤ) : List String :=
  sm.filter (fun s => ¬ cache_covers cacheL s fs fe)

/-- The set of symbols `get_data` sends to the upstream fetch, given the
pre-scan cache view `cache0` and the under-lock cache view `cacheL`. -/
def upstream_fetch_set (cache0 cacheL : CacheState) (symbols : List String)
    (fs fe : ℤ) : List String :=
  confirmed_misses cacheL (sorted_misses (probable_misses cache0 symbols fs fe)) fs fe

/-! ## `src/src/api/routes.py` — `POST /api/v1/backtest` (C1) -/

/-- The attributes defined on `class BacktestHandler` in
`src/src/api/handlers.py` (its `__init__`-assigned fields and methods).
Python attribute lookup on the instance consults exactly these. -/
def backtestHandlerAttrs : List String :=
  ["strategy_loader", "backtester", "handle_backtest"]

/-- Outcome of the `POST /api/v1/backtest` route. -/
inductive RouteResult where
  | accepted (job_id : String)
  | httpError (status : Nat) (detail : String)
deriving DecidableEq

/-- `run_backtest` in `src/src/api/routes.py`: the body calls
`handler.submit_backtest(request)`; the attribute does not exist on
`BacktestHandler`, so the lookup raises `AttributeError`, which the
`except Exception` arm converts to an HTTP 500. -/
def run_backtest_route (_ : BacktestRequest) : RouteResult :=
  if "submit_backtest" ∈ backtestHandlerAttrs then
    RouteResult.accepted "unreachable"
  else
    RouteResult.httpError 500
      "Failed to enqueue job: BacktestHandler object has no attribute submit_backtest"

/-! ## `src/src/execution/executor.py` — `Executor.execute` (C4)

`ExecutionPayload` (`src/src/models/execution.py`) declares the fields
`strategy_code, name, start_date, end_date, initial_capital, market_data`
and no `bar_size`; pydantic ignores the extra `bar_size=` keyword the
orchestrator passes, and reading `payload.bar_size` raises `AttributeError`. -/

/-- Bar sizes (`hqg_algorithms.BarSize`). -/
inductive BarSize where
  | DAILY | WEEKLY | MONTHLY | QUARTERLY
deriving DecidableEq, Repr

/-- Embedded `ExecutionPayload` pydantic model: exactly the declared fields
(`market_data` is abstracted; it plays no role in the executor). -/
structure ExecutionPayload where
  strategy_code : String
  name : Option String
  start_date : ℤ
  end_date : ℤ
  initial_capital : ℚ

/-- Python exceptions that can escape the embedded fragments. -/
inductive PyErr where
  | attributeError (msg : String)
deriving DecidableEq, Repr

/-- Reading `payload.bar_size`: the model has no such field, so pydantic
raises `AttributeError`. -/
def ExecutionPayload.barSizeAttr (_ : ExecutionPayload) : Except PyErr BarSize :=
  .error (.attributeError "ExecutionPayload object has no attribute bar_size")

/-- Embedded `RawExecutionResult` (`src/src/models/execution.py`), with the
extra `bar_size=` constructor keyword dropped by pydantic. -/
structure RawExecutionResult where
  trades : List (List (String × ℚ))
  equity_curve : List (String × ℚ)
  ohlc : List (String × (ℚ × ℚ × ℚ × ℚ))
  final_value : ℚ
  final_cash : ℚ
  final_positions : List (String × ℚ)
  execution_time : Option ℚ
  errors : List String
deriving DecidableEq

/-- What the parent observes of `subprocess.run` on the sandbox container:
a wall-clock timeout, an exception while spawning, or completion with an
exit code and stdout that is empty after `strip()`, fails to parse as a
`RawExecutionResult`, or parses to one. -/
inductive StdoutKind where
  | empty
  | unparsable
  | parsed (r : RawExecutionResult)
deriving DecidableEq

/-- The full outcome of `subprocess.run` as the parent code distinguishes it. -/
inductive SubprocessOutcome where
  | timeout
  | spawnError (msg : String)
  | completed (exitCode : ℤ) (stdout : StdoutKind)
deriving DecidableEq

/-- A handler arm of `Executor.execute` building the zeroed error result:
every such arm evaluates `payload.bar_size`, which raises. -/
def executorErrorResult (payload : ExecutionPayload) (msgs : List String) :
    Except PyErr RawExecutionResult :=
  match payload.barSizeAttr with
  | .error e => .error e
  | .ok _ =>
      .ok { trades := [], equity_curve := [], ohlc := [], final_value := 0,
            final_cash := 0, final_positions := [], execution_time := some 0,
            errors := msgs }

/-- `Executor.execute`. The exit code of the completed process is never
inspected; parse success returns the parsed result as-is. An exception
raised inside the `try` body is caught by `except Exception`, whose own
error-result construction re-raises; exceptions raised inside the
`except subprocess.TimeoutExpired` / `except Exception` handlers propagate
to the caller. -/
def executorExecute (payload : ExecutionPayload) (timeoutSecs : ℕ)
    (outcome : SubprocessOutcome) : Except PyErr RawExecutionResult :=
  match outcome with
  | .timeout =>
      executorErrorResult payload
        ["Container timed out after " ++ toString timeoutSecs ++ "s"]
  | .spawnError m =>
      executorErrorResult payload ["Container execution failed: " ++ m]
  | .completed _ .empty =>
      -- empty-stdout arm inside the try: building the error result raises
      -- AttributeError, caught by except Exception, whose arm raises again
      match executorErrorResult payload ["Container returned empty output."] with
      | .ok r => .ok r
      | .error (.attributeError m) =>
          executorErrorResult payload
            ["Container returned empty output.",
             "Container execution failed: " ++ m]
  | .completed _ .unparsable =>
      -- model_validate_json raises, caught by except Exception
      executorErrorResult payload
        ["Container execution failed: invalid stdout document"]
  | .completed _ (.parsed r) => .ok r

/-! ## `src/src/models/portfolio.py` — `Portfolio` (C5, C10) -/

/-- Order side (`OrderType` in `src/src/models/response.py`). -/
inductive OrderType where
  | BUY | SELL
deriving DecidableEq, Repr

/-- A trade as built by `Portfolio.rebalance` (the random uuid `id` field is
not modelled; no claim mentions it). -/
structure Trade where
  timestamp : ℤ
  symbol : String
  action : OrderType
  shares : ℚ
  price : ℚ
deriving DecidableEq, Repr

/-- Engine-internal portfolio state. -/
structure Portfolio where
  cash : ℚ
  positions : List (String × ℚ)
  equity_curve : List (ℤ × ℚ)
deriving DecidableEq, Repr

/-- `Portfolio.__init__`. -/
def Portfolio.init (initial_cash : ℚ) (symbols : List String) : Portfolio :=
  { cash := initial_cash,
    positions := symbols.map (fun s => (s, 0)),
    equity_curve := [] }

/-- `Portfolio.get_total_value`: cash plus `Σ positions.get(s,0) * prices.get(s,0)`. -/
def Portfolio.get_total_value (p : Portfolio) (prices : List (String × ℚ)) : ℚ :=
  p.cash + (p.positions.map
    (fun sq => sq.2 * ((alookup prices sq.1).getD 0))).sum

/-- `Portfolio.get_weights`: per held ticker present in `prices`,
`price * quantity / total_value`. -/
def Portfolio.get_weights (p : Portfolio) (prices : List (String × ℚ)) :
    List (String × ℚ) :=
  let tv := p.get_total_value prices
  p.positions.filterMap (fun tq =>
    match alookup prices tq.1 with
    | none => none
    | some price => some (tq.1, price * tq.2 / tv))

/-- Errors raised out of `Portfolio.rebalance`. -/
inductive RebalanceErr where
  | weightSum (total : ℚ)     -- ValueError: target weights sum too large
  | noPrice (symbol : String) -- ValueError: no price available for a target
  | keyError (symbol : String) -- KeyError from `prices[symbol]`
deriving DecidableEq, Repr

/-- First loop of `rebalance`: target shares for each targeted symbol,
raising when a targeted symbol has no price. -/
def computeTargets (target_weights prices : List (String × ℚ)) (total_value : ℚ) :
    Except RebalanceErr (List (String × ℚ)) :=
  match target_weights with
  | [] => .ok []
  | (s, w) :: rest =>
      match alookup prices s with
      | none => .error (.noPrice s)
      | some price =>
          match computeTargets rest prices total_value with
          | .error e => .error e
          | .ok tl => .ok ((s, total_value * w / price) :: tl)

/-- Second loop of `rebalance` over the portfolio dict keys, threading the
mutating portfolio. `prices[symbol]` inside the dust-threshold test raises
`KeyError` when the symbol has no price; the later
`if symbol not in prices: continue` guard is translated as written. -/
def rebalanceLoop (keys : List String) (targets prices : List (String × ℚ))
    (timestamp : ℤ) (port : Portfolio) (acc : List Trade) :
    Portfolio × Except RebalanceErr (List Trade) :=
  match keys with
  | [] => (port, .ok acc)
  | symbol :: rest =>
      let current_shares := (alookup port.positions symbol).getD 0
      let target_shares := (alookup targets symbol).getD 0
      let shares_to_trade := target_shares - current_shares
      match alookup prices symbol with
      | none => (port, .error (.keyError symbol))
      | some price =>
          if |shares_to_trade * price| < 1 then
            rebalanceLoop rest targets prices timestamp port acc
          else if (alookup prices symbol).isNone then
            rebalanceLoop rest targets prices timestamp port acc
          else
            let trade_value := |shares_to_trade| * price
            if shares_to_trade > 0 then
              let port' : Portfolio :=
                { port with
                  positions := aupdate port.positions symbol
                    (current_shares + shares_to_trade),
                  cash := port.cash - trade_value }
              rebalanceLoop rest targets prices timestamp port'
                (acc ++ [{ timestamp := timestamp, symbol := symbol,
                           action := .BUY, shares := shares_to_trade,
                           price := price }])
            else if shares_to_trade < 0 then
              let shares_to_sell := |shares_to_trade|
              let port' : Portfolio :=
                { port with
                  positions := aupdate port.positions symbol
                    (current_shares - shares_to_sell),
                  cash := port.cash + trade_value }
              rebalanceLoop rest targets prices timestamp port'
                (acc ++ [{ timestamp := timestamp, symbol := symbol,
                           action := .SELL, shares := shares_to_sell,
                           price := price }])
            else
              rebalanceLoop rest targets prices timestamp port acc

/-- `Portfolio.rebalance`. Returns the (possibly partially mutated)
portfolio together with either the executed trades or the exception raised;
the weight-sum check precedes every mutation. -/
def Portfolio.rebalance (p : Portfolio) (target_weights prices : List (String × ℚ))
    (timestamp : ℤ) : Portfolio × Except RebalanceErr (List Trade) :=
  let total_weight := (target_weights.map Prod.snd).sum
  if total_weight > 10001 / 10000 then
    (p, .error (.weightSum total_weight))
  else
    let total_value := p.get_total_value prices
    match computeTargets target_weights prices total_value with
    | .error e => (p, .error e)
    | .ok targets =>
        rebalanceLoop (p.positions.map Prod.fst) targets prices timestamp p []

/-! ## `src/src/services/backtester.py` — `Backtester._run_loop` (C2, C3, C9) -/

/-- Execution timings (`hqg_algorithms.ExecutionTiming`). -/
inductive ExecutionTiming where
  | CLOSE_TO_CLOSE | CLOSE_TO_NEXT_OPEN | OPEN_TO_OPEN
deriving DecidableEq, Repr

/-- `hqg_algorithms.Cadence` (defaults: DAILY, CLOSE_TO_CLOSE). -/
structure Cadence where
  bar_size : BarSize := .DAILY
  execution : ExecutionTiming := .CLOSE_TO_CLOSE
deriving DecidableEq, Repr

/-- One symbol's OHLCV values at a bar (field names abbreviate
open/high/low/close/volume; every field present — the embedding covers
complete frames, no NaN). -/
structure Bar where
  op : ℚ
  hi : ℚ
  lo : ℚ
  cl : ℚ
  vol : ℚ
deriving DecidableEq, Repr

/-- The per-timestamp view `_create_slice` builds: symbol → field values.
The external `hqg_algorithms.Slice` accessor `close(symbol)` is modelled as
association-list lookup of the close field. -/
def Slice : Type := List (String × Bar)

/-- A market-data frame as `_run_loop` consumes it: the index, and the row
at each index value (`data.loc[timestamp]` after `_create_slice`). -/
structure Frame where
  timestamps : List ℤ
  rowOf : ℤ → Slice

/-- `data.index.unique()` (and the `seen`-set dedup of the metadata
extractor): drop duplicates, keeping first occurrences in order. -/
def uniqueFirst {α : Type} [DecidableEq α] (seen : List α) : List α → List α
  | [] => []
  | t :: rest =>
      if t ∈ seen then uniqueFirst seen rest
      else t :: uniqueFirst (t :: seen) rest

/-- `PortfolioView` snapshot handed to `on_data` (`hqg_algorithms`). -/
structure PortfolioView where
  equity : ℚ
  cash : ℚ
  positions : List (String × ℚ)
  weights : List (String × ℚ)
deriving DecidableEq, Repr

/-- A user strategy after loading: its `universe()`, `cadence()` and
`on_data` members. Loading (`exec` of user code plus `Strategy`-subclass
discovery) is not embeddable; the loaded strategy is passed explicitly. -/
structure Strategy where
  univ : List String
  cadence : Cadence
  onData : Slice → PortfolioView → Option (List (String × ℚ))

/-- `pandas_market_calendars` calendar: `schedule(start, end)` returns rows
of (index day, market_close). -/
def Calendar : Type := ℤ → ℤ → List (ℤ × ℤ)

/-- The `Backtester` object state relevant to the loop. -/
structure Backtester where
  dataProvider : Option Unit
  marketCalendar : Option Calendar
  scheduleCache : Option (List (ℤ × ℤ))

/-- `Backtester.__init__` with no data provider, as the container
entrypoint constructs it: calendar and schedule cache are `None`. -/
def Backtester.new : Backtester :=
  { dataProvider := none, marketCalendar := none, scheduleCache := none }

/-- Exceptions that abort `_run_loop` (and the entrypoint fragments using it). -/
inductive LoopErr where
  | noneScheduleAttr          -- AttributeError: NoneType has no attribute schedule
  | sliceKey (symbol : String) -- KeyError from `slice_obj[symbol]`
  | emptyIndex                -- IndexError from `data.index[-1]` on an empty frame
  | reb (e : RebalanceErr)    -- propagated out of Portfolio.rebalance
deriving DecidableEq, Repr

/-- The fallback branch of `_get_trade_timestamp`:
`self.market_calendar.schedule(...)`, an `AttributeError` when the calendar
is `None`. -/
def fallbackSchedule (bt : Backtester) (ts : ℤ) : Except LoopErr (List (ℤ × ℤ)) :=
  match bt.marketCalendar with
  | none => .error .noneScheduleAttr
  | some cal => .ok (cal (ts - 10) ts)

/-- `Backtester._get_trade_timestamp`: map a bar timestamp to the most
recent cached market close, falling back to a fresh schedule query. -/
def getTradeTimestamp (bt : Backtester) (ts : ℤ) : Except LoopErr ℤ :=
  let schedule : Except LoopErr (List (ℤ × ℤ)) :=
    match bt.scheduleCache with
    | some sc =>
        if sc.isEmpty then fallbackSchedule bt ts
        else .ok (sc.filter (fun row => row.1 ≤ ts))
    | none => fallbackSchedule bt ts
  match schedule with
  | .error e => .error e
  | .ok rows =>
      match rows.getLast? with
      | none => .ok ts
      | some row => .ok row.2

/-- `Backtester._get_prices`: close price per universe symbol present in
the slice. -/
def getPrices (slice : Slice) (symbols : List String) : List (String × ℚ) :=
  symbols.filterMap (fun s => (alookup slice s).map (fun b => (s, b.cl)))

/-- Portfolio OHLC row (`Portfolio.update_ohlc` output, minus the timestamp). -/
structure OhlcRow where
  op : ℚ
  hi : ℚ
  lo : ℚ
  cl : ℚ
deriving DecidableEq, Repr

/-- The accumulation loop of `Portfolio.update_ohlc`: skip non-positive
holdings, add `shares * field` per field; `slice_obj[symbol]` raises
`KeyError` for a held symbol absent from the slice. -/
def updateOhlcLoop (slice : Slice) : List (String × ℚ) → OhlcRow →
    Except LoopErr OhlcRow
  | [], acc => .ok acc
  | (symbol, shares) :: rest, acc =>
      if shares ≤ 0 then updateOhlcLoop slice rest acc
      else
        match alookup slice symbol with
        | none => .error (.sliceKey symbol)
        | some bar =>
            updateOhlcLoop slice rest
              { op := acc.op + shares * bar.op, hi := acc.hi + shares * bar.hi,
                lo := acc.lo + shares * bar.lo, cl := acc.cl + shares * bar.cl }

/-- `Portfolio.update_ohlc`. -/
def Portfolio.update_ohlc (p : Portfolio) (slice : Slice) : Except LoopErr OhlcRow :=
  updateOhlcLoop slice p.positions
    { op := p.cash, hi := p.cash, lo := p.cash, cl := p.cash }

/-- State accumulated across `_run_loop` iterations. `calls` instruments
the timestamps at which `strategy.on_data` is invoked (for observation
only; nothing reads it back). -/
structure LoopState where
  port : Portfolio
  trades : List Trade
  ohlc : List (ℤ × OhlcRow)
  calls : List ℤ
deriving DecidableEq

/-- One pass of `_run_loop` over the enumerated remaining timeline.
`timelineLen` is `len(timestamps)` of the full timeline. -/
def runLoopAux (bt : Backtester) (strat : Strategy) (data : Frame)
    (timelineLen : ℕ) : List (ℕ × ℤ) → LoopState → Except LoopErr LoopState
  | [], st => .ok st
  | (i, t) :: rest, st =>
      if i = 0 then runLoopAux bt strat data timelineLen rest st
      else
        let slice := data.rowOf t
        match st.port.update_ohlc slice with
        | .error e => .error e
        | .ok row =>
            let prices := getPrices slice strat.univ
            let port1 : Portfolio :=
              { st.port with
                equity_curve :=
                  st.port.equity_curve ++ [(t, st.port.get_total_value prices)] }
            let view : PortfolioView :=
              { equity := port1.get_total_value prices, cash := port1.cash,
                positions := port1.positions,
                weights := port1.get_weights prices }
            let st1 : LoopState :=
              { st with
                port := port1
                ohlc := st.ohlc ++ [(t, row)]
                calls := st.calls ++ [t] }
            match strat.onData slice view with
            | none => runLoopAux bt strat data timelineLen rest st1
            | some target_weights =>
                if i ≥ timelineLen then .ok st1  -- `break`
                else
                  let exec_prices := getPrices (data.rowOf t) strat.univ
                  match getTradeTimestamp bt t with
                  | .error e => .error e
                  | .ok trade_ts =>
                      match st1.port.rebalance target_weights exec_prices trade_ts with
                      | (_, .error e) => .error (.reb e)
                      | (port2, .ok new_trades) =>
                          runLoopAux bt strat data timelineLen rest
                            { st1 with
                              port := port2
                              trades := st1.trades ++ new_trades }

/-- `Backtester._run_loop`: iterate `enumerate(data.index.unique())`,
skipping the first bar; no step after the loop touches the portfolio. -/
def runLoop (bt : Backtester) (strat : Strategy) (data : Frame)
    (port : Portfolio) (_cadence : Cadence) : Except LoopErr LoopState :=
  let timeline := uniqueFirst [] data.timestamps
  runLoopAux bt strat data timeline.length timeline.enum
    { port := port, trades := [], ohlc := [], calls := [] }

/-- `Backtester._get_final_prices`: prices at `data.index[-1]` (an
`IndexError` on an empty frame). -/
def getFinalPrices (data : Frame) (symbols : List String) :
    Except LoopErr (List (String × ℚ)) :=
  match data.timestamps.getLast? with
  | none => .error .emptyIndex
  | some t => .ok (getPrices (data.rowOf t) symbols)

/-! ## `src/src/execution/container/entrypoint.py` — `execute_backtest` (C2, C3) -/

/-- The dict `execute_backtest` returns (turned into the child-side
`RawExecutionResult`; the extra `bar_size` key is kept here since claims
read it). -/
structure ContainerResult where
  trades : List Trade
  equity_curve : List (ℤ × ℚ)
  ohlc : List (ℤ × OhlcRow)
  final_value : ℚ
  final_cash : ℚ
  final_positions : List (String × ℚ)
  errors : List String
  bar_size : BarSize
deriving DecidableEq

/-- `str(e)` for the exceptions the loop can raise. -/
def loopErrMsg : LoopErr → String
  | .noneScheduleAttr => "NoneType object has no attribute schedule"
  | .sliceKey s => "KeyError: " ++ s
  | .emptyIndex => "index -1 is out of bounds for axis 0 with size 0"
  | .reb (.weightSum q) =>
      "Target weights sum to " ++ toString q ++ ", must be <= 1.0"
  | .reb (.noPrice s) => "No price available for " ++ s
  | .reb (.keyError s) => "KeyError: " ++ s

/-- The `except Exception` arm of `execute_backtest`: zeroed fields, the
exception message in `errors`, `bar_size` forced to DAILY. -/
def errorContainerResult (e : LoopErr) : ContainerResult :=
  { trades := [], equity_curve := [], ohlc := [], final_value := 0,
    final_cash := 0, final_positions := [], 
    errors := ["Strategy execution error: " ++ loopErrMsg e],
    bar_size := .DAILY }

/-- `execute_backtest` (container entrypoint): construct a fresh
`Backtester()` (no calendar, no schedule cache), run the loop, price the
final state; any exception collapses to the zeroed error result. -/
def executeBacktest (strat : Strategy) (marketData : Frame)
    (initial_capital : ℚ) : ContainerResult :=
  let backtester := Backtester.new
  let portfolio := Portfolio.init initial_capital strat.univ
  match runLoop backtester strat marketData portfolio strat.cadence with
  | .error e => errorContainerResult e
  | .ok st =>
      match getFinalPrices marketData strat.univ with
      | .error e => errorContainerResult e
      | .ok final_prices =>
          { trades := st.trades
            equity_curve := st.port.equity_curve
            ohlc := st.ohlc
            final_value := st.port.get_total_value final_prices
            final_cash := st.port.cash
            final_positions := st.port.positions
            errors := []
            bar_size := strat.cadence.bar_size }

/-- The portfolio view `on_data` receives at a bar reached with the initial
portfolio still intact (no prior rebalance): cash and positions are the
constructor values, weights and equity are computed from this bar's prices. -/
def initialBarView (strat : Strategy) (cash0 : ℚ) (slice : Slice) :
    PortfolioView :=
  let p := Portfolio.init cash0 strat.univ
  let prices := getPrices slice strat.univ
  { equity := p.get_total_value prices, cash := p.cash,
    positions := p.positions, weights := p.get_weights prices }

/-- Whether the strategy, run over the timeline, returns a non-None signal
at some bar after the first. Until the first signal the portfolio state
visible to `on_data` is the initial one, so this is a pure scan. -/
def hitsSignal (strat : Strategy) (marketData : Frame) (cash0 : ℚ) : Bool :=
  (uniqueFirst [] marketData.timestamps).enum.any (fun it =>
    it.1 ≠ 0 &&
      (strat.onData (marketData.rowOf it.2)
        (initialBarView strat cash0 (marketData.rowOf it.2))).isSome)

/-! ## `src/src/validation/output_validator.py` — `OutputValidator.validate` (C9) -/

/-- A serialized trade as the validator reads it
(`trade.get("price", 0)`, `trade.get("amount", 0)`). -/
structure TradeDoc where
  price : ℚ
  amount : ℚ
deriving DecidableEq, Repr

/-- Input to the output validator (`RawExecutionResult` of
`src/src/validation/executor.py`, fields the validator reads). -/
structure ValidationInput where
  errors : List String
  final_value : ℚ
  equity_curve : List (String × ℚ)
  trades : List TradeDoc
deriving DecidableEq, Repr

/-- `math.isnan` on the ℚ model of float values: the embedding covers
real-valued computations, in which NaN never arises. -/
def qIsNaN (_ : ℚ) : Bool := false

/-- `math.isinf` on the ℚ model of float values. -/
def qIsInf (_ : ℚ) : Bool := false

/-- The equity-curve loop of `validate`: raise on the first NaN/Inf value. -/
def equityCurveCheck : List (String × ℚ) → Except String Unit
  | [] => .ok ()
  | (ts, v) :: rest =>
      if qIsNaN v || qIsInf v then
        .error ("Invalid equity curve value at " ++ ts)
      else equityCurveCheck rest

/-- The trade loop of `validate`: raise on the first non-positive price or
amount. -/
def tradesCheck : List TradeDoc → Except String Unit
  | [] => .ok ()
  | t :: rest =>
      if t.price ≤ 0 then .error "Trade with non-positive price"
      else if t.amount ≤ 0 then .error "Trade with non-positive amount"
      else tradesCheck rest

/-- `OutputValidator.validate`: executor errors, final-value sanity, equity
values, trade positivity, then the non-empty equity-curve requirement. -/
def outputValidate (o : ValidationInput) : Except String ValidationInput :=
  if o.errors ≠ [] then
    .error ("Execution failed: " ++ String.intercalate "; " o.errors)
  else if qIsNaN o.final_value || qIsInf o.final_value then
    .error "Invalid final_value"
  else if o.final_value < 0 then
    .error "Negative final portfolio value"
  else
    match equityCurveCheck o.equity_curve with
    | .error e => .error e
    | .ok _ =>
        match tradesCheck o.trades with
        | .error e => .error e
        | .ok _ =>
            if o.equity_curve.isEmpty then
              .error "Empty equity curve - execution produced no data"
            else .ok o

/-- Shape a loop result the way the pipeline presents it to the output
validator: errors and curve as produced, trades serialized with their
`price` and `amount` (= shares) fields. -/
def toValidationInput (errors : List String) (final_value : ℚ)
    (equity_curve : List (ℤ × ℚ)) (trades : List Trade) : ValidationInput :=
  { errors := errors
    final_value := final_value
    equity_curve := equity_curve.map (fun p => (toString p.1, p.2))
    trades := trades.map (fun t => { price := t.price, amount := t.shares }) }

/-! ## `src/src/utils/strategy_metadata.py` — `extract_metadata` (C6)

The Python `ast` fragment the extractor inspects, embedded directly; the
`ast.parse` step itself is outside the embedding, so sources are modelled
as the class definitions of the parsed tree in `ast.walk` order. -/

/-- Python values `ast.literal_eval` can produce (the subset relevant to
universe parsing). -/
inductive PyVal where
  | vstr (s : String)
  | vint (n : ℤ)
  | vbool (b : Bool)
  | vnone
  | vlist (l : List PyVal)
  | vtuple (l : List PyVal)

/-- Python expression nodes as the extractor distinguishes them. -/
inductive PyExpr where
  | strLit (s : String)
  | intLit (n : ℤ)
  | boolLit (b : Bool)
  | noneLit
  | listLit (elts : List PyExpr)
  | tupleLit (elts : List PyExpr)
  | nameRef (id : String)
  | attrRef (base : PyExpr) (attrName : String)
  | callNode (func : PyExpr) (keywords : List (String × PyExpr))
  | binOpAdd (a b : PyExpr)

mutual
/-- `ast.literal_eval`: literals evaluate, names/calls/attribute
references/list concatenations raise (`ValueError`). -/
def literalEval : PyExpr → Option PyVal
  | .strLit s => some (.vstr s)
  | .intLit n => some (.vint n)
  | .boolLit b => some (.vbool b)
  | .noneLit => some .vnone
  | .listLit es => (literalEvalList es).map .vlist
  | .tupleLit es => (literalEvalList es).map .vtuple
  | .nameRef _ => none
  | .attrRef _ _ => none
  | .callNode _ _ => none
  | .binOpAdd _ _ => none

/-- `literal_eval` over the elements of a container literal. -/
def literalEvalList : List PyExpr → Option (List PyVal)
  | [] => some []
  | e :: rest =>
      match literalEval e, literalEvalList rest with
      | some v, some vs => some (v :: vs)
      | _, _ => none
end

/-- An assignment target (`ast.Name` or anything else). -/
inductive PyTarget where
  | nameTarget (id : String)
  | otherTarget

/-- A class-body statement as the extractor distinguishes it. -/
inductive PyStmt where
  | assign (targets : List PyTarget) (value : PyExpr)
  | otherStmt

/-- A `class` definition: name and body statements. -/
structure PyClassDef where
  cname : String
  body : List PyStmt

/-- The value of the last class-body assignment binding `key` through a
plain-name target (mirrors the extractor's target scan, where a later
assignment overwrites an earlier one). -/
def findBinding (body : List PyStmt) (key : String) : Option PyExpr :=
  body.foldl
    (fun acc st =>
      match st with
      | .assign targets v =>
          if targets.any (fun tg =>
              match tg with
              | .nameTarget id => id = key
              | .otherTarget => false) then some v else acc
      | .otherStmt => acc)
    none

/-- Failures `extract_metadata` raises (each a `ValueError` in the source;
the constructor records which message template fired). -/
inductive MetaErr where
  | notListLiteral (className : String)
  | notAList (className : String)
  | emptyUniverse (className : String)
  | invalidTickers (className : String) (errs : List String)
  | tooManyTickers (className : String) (n : ℕ)
  | noUniverseClass
  | cadenceNotCall (className : String)
  | cadenceBadFunc (className : String)
  | cadenceBadArg (className : String)
  | cadenceUnknownMember (className : String) (member : String)
  | cadenceUnknownKw (className : String) (kw : String)

/-- `MAX_TICKER_LEN`. -/
def MAX_TICKER_LEN : ℕ := 12

/-- `MAX_UNIVERSE_SIZE`. -/
def MAX_UNIVERSE_SIZE : ℕ := 200

/-- `str.strip()`: drop leading and trailing whitespace (character-list
model of the Python method). -/
def pyStrip (s : String) : String :=
  String.mk (((s.data.dropWhile Char.isWhitespace).reverse.dropWhile
    Char.isWhitespace).reverse)

/-- `str.upper()` on ASCII tickers: uppercase every character. -/
def pyUpper (s : String) : String := String.mk (s.data.map Char.toUpper)

/-- `item.strip().upper()`. -/
def normalizeTicker (s : String) : String := pyUpper (pyStrip s)

/-- The validate-and-normalize pass of `_parse_and_clean_universe`:
walk the items accumulating `cleaned`, `seen` and per-item error notes. -/
def cleanPass : List (ℕ × PyVal) → List String → List String → List String →
    List String × List String
  | [], cleaned, _seen, errs => (cleaned, errs)
  | (i, item) :: rest, cleaned, seen, errs =>
      match item with
      | .vstr s =>
          let ticker := normalizeTicker s
          if ticker = "" then
            cleanPass rest cleaned seen
              (errs ++ ["universe[" ++ toString i ++ "]: empty or whitespace-only ticker"])
          else if ticker.length > MAX_TICKER_LEN then
            cleanPass rest cleaned seen
              (errs ++ ["universe[" ++ toString i ++ "]: ticker exceeds max length"])
          else if ticker ∈ seen then
            cleanPass rest cleaned seen errs
          else
            cleanPass rest (cleaned ++ [ticker]) (ticker :: seen) errs
      | _ =>
          cleanPass rest cleaned seen
            (errs ++ ["universe[" ++ toString i ++ "]: expected string"])

/-- `_parse_and_clean_universe`. -/
def parseCleanUniverse (node : PyExpr) (className : String) :
    Except MetaErr (List String) :=
  match literalEval node with
  | none => .error (.notListLiteral className)
  | some v =>
      match v with
      | .vlist items =>
          if items.length = 0 then .error (.emptyUniverse className)
          else
            match cleanPass items.enum [] [] [] with
            | (cleaned, errs) =>
                if errs ≠ [] then .error (.invalidTickers className errs)
                else if cleaned.length > MAX_UNIVERSE_SIZE then
                  .error (.tooManyTickers className cleaned.length)
                else .ok cleaned
      | _ => .error (.notAList className)

/-- `BARSIZE_MAP` membership. -/
def barSizeOfName : String → Option BarSize
  | "DAILY" => some .DAILY
  | "WEEKLY" => some .WEEKLY
  | "MONTHLY" => some .MONTHLY
  | "QUARTERLY" => some .QUARTERLY
  | _ => none

/-- `EXECUTION_MAP` membership. -/
def executionOfName : String → Option ExecutionTiming
  | "CLOSE_TO_CLOSE" => some .CLOSE_TO_CLOSE
  | "CLOSE_TO_NEXT_OPEN" => some .CLOSE_TO_NEXT_OPEN
  | "OPEN_TO_OPEN" => some .OPEN_TO_OPEN
  | _ => none

/-- `_resolve_enum_attr`: accept `Name.attr` only. -/
def resolveEnumAttr (e : PyExpr) (className : String) : Except MetaErr String :=
  match e with
  | .attrRef (.nameRef _) a => .ok a
  | _ => .error (.cadenceBadArg className)

/-- The keyword loop of `_parse_cadence`. -/
def cadenceKwLoop (className : String) : List (String × PyExpr) → Cadence →
    Except MetaErr Cadence
  | [], acc => .ok acc
  | (kw, v) :: rest, acc =>
      match resolveEnumAttr v className with
      | .error e => .error e
      | .ok attrStr =>
          if kw = "bar_size" then
            match barSizeOfName attrStr with
            | none => .error (.cadenceUnknownMember className attrStr)
            | some bs => cadenceKwLoop className rest { acc with bar_size := bs }
          else if kw = "execution" then
            match executionOfName attrStr with
            | none => .error (.cadenceUnknownMember className attrStr)
            | some ex => cadenceKwLoop className rest { acc with execution := ex }
          else .error (.cadenceUnknownKw className kw)

/-- `_parse_cadence`. -/
def parseCadence (node : PyExpr) (className : String) : Except MetaErr Cadence :=
  match node with
  | .callNode f kws =>
      let fname : Option String :=
        match f with
        | .nameRef id => some id
        | .attrRef _ a => some a
        | _ => none
      if fname = some "Cadence" then cadenceKwLoop className kws {}
      else .error (.cadenceBadFunc className)
  | _ => .error (.cadenceNotCall className)

/-- `StrategyMetadata`. -/
structure StrategyMetadata where
  univ : List String
  cadence : Cadence
deriving DecidableEq

/-- `extract_metadata` over the class definitions of the parsed tree: the
first class binding `universe` is taken; its universe literal is cleaned,
its cadence call (if bound) parsed, defaults otherwise. -/
def extractMetadata : List PyClassDef → Except MetaErr StrategyMetadata
  | [] => .error .noUniverseClass
  | cls :: rest =>
      match findBinding cls.body "universe" with
      | none => extractMetadata rest
      | some uNode =>
          match parseCleanUniverse uNode cls.cname with
          | .error e => .error e
          | .ok u =>
              match findBinding cls.body "cadence" with
              | none => .ok { univ := u, cadence := {} }
              | some cNode =>
                  match parseCadence cNode cls.cname with
                  | .error e => .error e
                  | .ok cad => .ok { univ := u, cadence := cad }

/-- First portfolio-dict key with no price (the symbol at which the
rebalance dust-threshold lookup `prices[symbol]` must raise). -/
def firstMissingKey (positions prices : List (String × ℚ)) : Option String :=
  (positions.map Prod.fst).find? (fun s => (alookup prices s).isNone)

/-- A universe item that survives the extractor checks: a string whose
normalization is non-empty and within the ticker-length bound. -/
def validTicker (v : PyVal) : Bool :=
  match v with
  | .vstr s => normalizeTicker s ≠ "" && (normalizeTicker s).length ≤ MAX_TICKER_LEN
  | _ => false

/-- The normalized strings of a list of universe items. -/
def normalizedStrings (vs : List PyVal) : List String :=
  vs.filterMap (fun v =>
    match v with
    | .vstr s => some (normalizeTicker s)
    | _ => none)

/-- A `universe` binding that is not a literal at all: a variable
reference, a call, an attribute access, or a concatenation. -/
def nonLiteralUniverse (e : PyExpr) : Bool :=
  match e with
  | .nameRef _ => true
  | .callNode _ _ => true
  | .attrRef _ _ => true
  | .binOpAdd _ _ => true
  | _ => false

/-- A constant all-tens OHLCV bar used by the concrete runs below. -/
def barTen : Bar := { op := 10, hi := 10, lo := 10, cl := 10, vol := 100 }

/-- A two-bar single-symbol frame. -/
def frameTwo : Frame := { timestamps := [1, 2], rowOf := fun _ => [("A", barTen)] }

/-- A three-bar single-symbol frame. -/
def frameThree : Frame :=
  { timestamps := [1, 2, 3], rowOf := fun _ => [("A", barTen)] }

/-- A one-bar single-symbol frame. -/
def frameOne : Frame := { timestamps := [7], rowOf := fun _ => [("A", barTen)] }

/-- A strategy that targets 100 percent A at every bar. -/
def stratAlways : Strategy :=
  { univ := ["A"], cadence := {}, onData := fun _ _ => some [("A", 1)] }

/-- A strategy that never signals. -/
def stratNever : Strategy :=
  { univ := ["A"], cadence := {}, onData := fun _ _ => none }

/-- A buy-once strategy: full weight in A while flat, then hold. -/
def stratBuyOnce : Strategy :=
  { univ := ["A"], cadence := {},
    onData := fun _ view =>
      if alookup view.positions "A" = some 0 then some [("A", 1)] else none }

/-- A backtester whose NYSE schedule cache is populated (as after
`Backtester.run` has set it), closing each day at its own timestamp. -/
def btSched : Backtester :=
  { dataProvider := none, marketCalendar := none,
    scheduleCache := some [(1, 1), (2, 2), (3, 3)] }

/-- A constant all-1000 portfolio OHLC row. -/
def rowK : OhlcRow := { op := 1000, hi := 1000, lo := 1000, cl := 1000 }

/-- The portfolio a no-signal strategy leaves after `frameThree`. -/
def portHold : Portfolio :=
  { cash := 1000
    positions := [("A", 0)]
    equity_curve := [(2, 1000), (3, 1000)] }

/-- The loop state a no-signal strategy leaves after `frameThree`. -/
def stHold : LoopState :=
  { port := portHold
    trades := []
    ohlc := [(2, rowK), (3, rowK)]
    calls := [2, 3] }

/-- The loop state any strategy leaves after a one-bar frame. -/
def stOne : LoopState :=
  { port := Portfolio.init 1000 ["A"], trades := [], ohlc := [], calls := [] }

/-! ## Helper lemmas -/

theorem alookup_aupdate_ne {α : Type} (l : List (String × α)) (s t : String)
    (v : α) (h : s ≠ t) : alookup (aupdate l s v) t = alookup l t := by
  induction l with
  | nil => rfl
  | cons p rest ih =>
    obtain ⟨k, w⟩ := p
    by_cases hp : k = s
    · subst hp
      simp only [aupdate, List.map_cons, if_pos rfl]
      simp [alookup, h, Ne.symm h, ← ih, aupdate]
    · simp only [aupdate, List.map_cons, if_neg hp]
      by_cases ht : k = t
      · simp [alookup, ht]
      · simp [alookup, ht, ← ih, aupdate]

theorem repChar_utf8ByteSize (n : Nat) : (repChar n).utf8ByteSize = n := by
  induction n with
  | zero => rfl
  | succ m ih =>
    have : repChar (m + 1) = String.mk ('a' :: List.replicate m 'a') := by
      simp [repChar, List.replicate]
    rw [this]
    simp only [String.utf8ByteSize] at *
    simp only [String.utf8ByteSize.go]
    simpa [repChar, Char.utf8Size] using ih

theorem uniqueFirst_not_mem_seen {α : Type} [DecidableEq α] (seen l : List α) :
    ∀ x ∈ uniqueFirst seen l, x ∉ seen := by
  induction l generalizing seen with
  | nil => intro x hx; simp [uniqueFirst] at hx
  | cons t rest ih =>
    intro x hx
    by_cases ht : t ∈ seen
    · exact ih seen x (by simpa [uniqueFirst, ht] using hx)
    · simp only [uniqueFirst, if_neg ht, List.mem_cons] at hx
      rcases hx with rfl | hx
      · exact ht
      · have := ih (t :: seen) x hx
        intro hxs
        exact this (List.mem_cons_of_mem _ hxs)

theorem uniqueFirst_nodup {α : Type} [DecidableEq α] (seen l : List α) :
    (uniqueFirst seen l).Nodup := by
  induction l generalizing seen with
  | nil => simp [uniqueFirst]
  | cons t rest ih =>
    by_cases ht : t ∈ seen
    · simpa [uniqueFirst, ht] using ih seen
    · simp only [uniqueFirst, if_neg ht]
      refine List.nodup_cons.mpr ⟨?_, ih (t :: seen)⟩
      intro hmem
      exact uniqueFirst_not_mem_seen (t :: seen) rest t hmem (List.mem_cons_self t seen)

theorem cleanPass_errs_ne (l : List (ℕ × PyVal)) :
    ∀ cleaned seen errs, errs ≠ [] → (cleanPass l cleaned seen errs).2 ≠ [] := by
  induction l with
  | nil => intro cleaned seen errs h; simpa [cleanPass] using h
  | cons p rest ih =>
    intro cleaned seen errs h
    obtain ⟨i, item⟩ := p
    cases item with
    | vstr s =>
        simp only [cleanPass]
        split_ifs <;> apply ih <;> simp [h]
    | vint n => exact ih _ _ _ (by simp)
    | vbool b => exact ih _ _ _ (by simp)
    | vnone => exact ih _ _ _ (by simp)
    | vlist l2 => exact ih _ _ _ (by simp)
    | vtuple l2 => exact ih _ _ _ (by simp)

theorem computeTargets_not_weightSum (tw prices : List (String × ℚ)) (tv q : ℚ) :
    computeTargets tw prices tv ≠ .error (.weightSum q) := by
  induction tw with
  | nil => simp [computeTargets]
  | cons p rest ih =>
    obtain ⟨s, w⟩ := p
    simp only [computeTargets]
    cases alookup prices s with
    | none => simp
    | some price =>
        cases hct : computeTargets rest prices tv with
        | error e =>
            simp only []
            intro hcontra
            rw [hct] at ih
            exact ih (by simpa using hcontra)
        | ok tl => simp [hct]

theorem rebalanceLoop_not_weightSum (targets prices : List (String × ℚ)) (ts : ℤ) :
    ∀ (keys : List String) (port : Portfolio) (acc : List Trade) (q : ℚ),
      (rebalanceLoop keys targets prices ts port acc).2 ≠ .error (.weightSum q) := by
  intro keys
  induction keys with
  | nil => intro port acc q; simp [rebalanceLoop]
  | cons k rest ih =>
    intro port acc q
    simp only [rebalanceLoop]
    cases hk : alookup prices k with
    | none => simp
    | some price =>
        dsimp only
        split_ifs <;> apply ih

theorem computeTargets_isOk (tw prices : List (String × ℚ)) (tv : ℚ)
    (h : ∀ s ∈ tw.map Prod.fst, (alookup prices s).isSome) :
    ∃ tl, computeTargets tw prices tv = .ok tl := by
  induction tw with
  | nil => exact ⟨[], rfl⟩
  | cons p rest ih =>
    obtain ⟨s, w⟩ := p
    have hs : (alookup prices s).isSome := h s (by simp)
    obtain ⟨price, hp⟩ := Option.isSome_iff_exists.mp hs
    obtain ⟨tl, htl⟩ := ih (fun x hx => h x (by simp [hx]))
    exact ⟨(s, tv * w / price) :: tl, by simp [computeTargets, hp, htl]⟩

theorem rebalanceLoop_keyError (targets prices : List (String × ℚ)) (ts : ℤ)
    (s0 : String) :
    ∀ (keys : List String) (port : Portfolio) (acc : List Trade),
      keys.find? (fun s => (alookup prices s).isNone) = some s0 →
      (rebalanceLoop keys targets prices ts port acc).2 = .error (.keyError s0) := by
  intro keys
  induction keys with
  | nil => intro port acc h; simp [List.find?] at h
  | cons k rest ih =>
    intro port acc h
    rw [List.find?] at h
    cases hk : alookup prices k with
    | none =>
        rw [hk] at h
        simp at h
        subst h
        simp [rebalanceLoop, hk]
    | some price =>
        rw [hk] at h
        simp at h
        simp only [rebalanceLoop, hk]
        split_ifs <;> exact ih _ _ h

/-- C7: for a symbol with a non-empty cache, `_cache_covers` is exactly
`cache.max ≥ fetch_end AND (fetch_start ≥ 2000-01-01 OR cache.min ≤
fetch_start + 30 days)`; and a symbol whose re-check under the lock
covers is excluded from the upstream fetch list of `get_data`. -/
theorem C7_cache_coverage
    (cache0 cacheL : CacheState) (symbols : List String) (s : String)
    (fs fe mn mx : ℤ) (hs : cacheL s = some ⟨mn, mx⟩) :
    (cache_covers cacheL s fs fe = true ↔
      (mx ≥ fe ∧ (fs ≥ DEFAULT_HISTORY_START ∨ mn ≤ fs + 30))) ∧
    (cache_covers cacheL s fs fe = true →
      s ∉ upstream_fetch_set cache0 cacheL symbols fs fe) := by
  constructor
  · unfold cache_covers
    rw [hs]
    by_cases hfs : fs ≥ DEFAULT_HISTORY_START
    · simp [hfs]
    · simp [hfs]
  · intro hc
    unfold upstream_fetch_set confirmed_misses
    simp [List.mem_filter, hc]

theorem C7_witness :
    ((cache_covers (fun _ => some ⟨0, 100⟩ : CacheState) "SPY" 11000 50 = true ↔
      ((100 : ℤ) ≥ 50 ∧ ((11000 : ℤ) ≥ DEFAULT_HISTORY_START ∨ (0 : ℤ) ≤ 11000 + 30))) ∧
     (cache_covers (fun _ => some ⟨0, 100⟩ : CacheState) "SPY" 11000 50 = true →
      "SPY" ∉ upstream_fetch_set (fun _ => some ⟨0, 100⟩ : CacheState)
        (fun _ => some ⟨0, 100⟩ : CacheState) ["SPY"] 11000 50)) :=
  C7_cache_coverage _ _ ["SPY"] "SPY" 11000 50 0 100 rfl

/-- C8 counterexample: a strategy code of 1,000,001 bytes is within the
claimed 1 MiB (1,048,576-byte) bound, yet the size validator rejects it —
the implemented threshold is 1,000,000 bytes. -/
theorem C8_counterexample :
    (repChar 1000001).utf8ByteSize ≤ 1048576 ∧
      validate_code (repChar 1000001) = .error "Strategy code too large" := by
  have h := repChar_utf8ByteSize 1000001
  refine ⟨by rw [h]; norm_num, ?_⟩
  simp only [validate_code, h]
  norm_num

/-- C8 (amended): the size check accepts exactly the codes of at most
1,000,000 UTF-8 bytes; in particular anything over 1 MiB is rejected. -/
theorem C8_size_check (v : String) :
    (validate_code v = .ok v ↔ v.utf8ByteSize ≤ 1000000) ∧
    (v.utf8ByteSize > 1048576 → validate_code v = .error "Strategy code too large") := by
  simp only [validate_code]
  constructor
  · split_ifs with h
    · simp only [reduceCtorEq, false_iff]
      omega
    · simp only [true_iff]
      omega
  · intro h
    split_ifs with h2
    · rfl
    · omega

theorem C8_witness : validate_code (repChar 3) = .ok (repChar 3) :=
  (C8_size_check (repChar 3)).1.mpr (by rw [repChar_utf8ByteSize]; norm_num)

/-- C1: `BacktestHandler` defines no `submit_backtest`, so for every valid
`BacktestRequest` the `POST /api/v1/backtest` body raises `AttributeError`
and the route answers 500 — never 202 with a job id. -/
theorem C1_submit_always_500 (r : BacktestRequest) (_h : r.valid) :
    run_backtest_route r =
      .httpError 500
        "Failed to enqueue job: BacktestHandler object has no attribute submit_backtest" ∧
    ∀ job_id, run_backtest_route r ≠ .accepted job_id := by
  refine ⟨rfl, ?_⟩
  intro job_id hcontra
  simp [run_backtest_route, backtestHandlerAttrs] at hcontra

theorem C1_witness :
    run_backtest_route
        { strategy_code := "x", name := none, start_date := 0, end_date := 1,
          initial_capital := 10000, commission := 0, slippage := 0 } =
      .httpError 500
        "Failed to enqueue job: BacktestHandler object has no attribute submit_backtest" :=
  (C1_submit_always_500 _ (by constructor <;> norm_num)).1

/-- C4: every failure path of `Executor.execute` (timeout, spawn failure,
empty stdout, unparsable stdout) evaluates the non-existent
`payload.bar_size` while building its error result and so raises
`AttributeError` out of the executor, instead of returning a zeroed
`RawExecutionResult`; on parseable stdout the parsed result is returned
as-is, with the exit code never inspected. -/
theorem C4_executor_attribute_error (p : ExecutionPayload) (n : ℕ) (c : ℤ)
    (m : String) (r : RawExecutionResult) :
    executorExecute p n .timeout =
      .error (.attributeError "ExecutionPayload object has no attribute bar_size") ∧
    executorExecute p n (.spawnError m) =
      .error (.attributeError "ExecutionPayload object has no attribute bar_size") ∧
    executorExecute p n (.completed c .empty) =
      .error (.attributeError "ExecutionPayload object has no attribute bar_size") ∧
    executorExecute p n (.completed c .unparsable) =
      .error (.attributeError "ExecutionPayload object has no attribute bar_size") ∧
    executorExecute p n (.completed c (.parsed r)) = .ok r :=
  ⟨rfl, rfl, rfl, rfl, rfl⟩

/-- C5: `Portfolio.rebalance` rejects a weight sum above 1.0001 before any
mutation — the untouched portfolio and a weight-sum error naming the sum
are returned, with no trades — and a sum of at most 1.0001 can never
produce the weight-sum error. -/
theorem C5_rebalance_weight_guard (p : Portfolio)
    (tw prices : List (String × ℚ)) (ts : ℤ) :
    ((tw.map Prod.snd).sum > 10001 / 10000 →
      p.rebalance tw prices ts = (p, .error (.weightSum ((tw.map Prod.snd).sum)))) ∧
    ((tw.map Prod.snd).sum ≤ 10001 / 10000 →
      ∀ q, (p.rebalance tw prices ts).2 ≠ .error (.weightSum q)) := by
  constructor
  · intro h
    unfold Portfolio.rebalance
    rw [if_pos h]
  · intro h q
    simp only [Portfolio.rebalance]
    rw [if_neg (not_lt.mpr h)]
    cases hct : computeTargets tw prices (p.get_total_value prices) with
    | error e =>
        dsimp only
        have hne := computeTargets_not_weightSum tw prices (p.get_total_value prices) q
        rw [hct] at hne
        intro hcontra
        injection hcontra with hqe
        exact hne (by rw [hqe])
    | ok targets =>
        dsimp only
        exact rebalanceLoop_not_weightSum targets prices ts _ p [] q

theorem C5_witness :
    (Portfolio.init 100 ["A"]).rebalance [("A", 2)] [("A", 10)] 0 =
      (Portfolio.init 100 ["A"], .error (.weightSum 2)) := by
  have h := (C5_rebalance_weight_guard (Portfolio.init 100 ["A"])
    [("A", 2)] [("A", 10)] 0).1 (by norm_num)
  simpa using h

/-- C10: when the weight sum passes and every targeted symbol has a price,
a portfolio symbol missing from `prices` makes the dust-threshold lookup
`prices[symbol]` raise `KeyError` at the first such symbol — even when its
share delta is zero — so the later `if symbol not in prices` guard never
fires. -/
theorem C10_dust_lookup_keyerror (p : Portfolio)
    (tw prices : List (String × ℚ)) (ts : ℤ) (s0 : String)
    (hsum : (tw.map Prod.snd).sum ≤ 10001 / 10000)
    (htargets : ∀ s ∈ tw.map Prod.fst, (alookup prices s).isSome)
    (hmiss : firstMissingKey p.positions prices = some s0) :
    (p.rebalance tw prices ts).2 = .error (.keyError s0) := by
  simp only [Portfolio.rebalance]
  rw [if_neg (not_lt.mpr hsum)]
  obtain ⟨tl, htl⟩ := computeTargets_isOk tw prices (p.get_total_value prices) htargets
  rw [htl]
  dsimp only
  exact rebalanceLoop_keyError tl prices ts s0 _ p [] hmiss

theorem C10_witness :
    ((Portfolio.init 100 ["A", "B"]).rebalance [("A", 1/2)] [("A", 10)] 0).2 =
      .error (.keyError "B") := by
  apply C10_dust_lookup_keyerror
  · norm_num
  · intro s hs
    simp only [List.map_cons, List.map_nil, List.mem_singleton] at hs
    subst hs
    simp [alookup]
  · rfl

theorem updateOhlcLoop_zeros (slice : Slice) (symbols : List String)
    (acc : OhlcRow) :
    updateOhlcLoop slice (symbols.map (fun s => (s, (0 : ℚ)))) acc = .ok acc := by
  induction symbols with
  | nil => rfl
  | cons s rest ih => simpa [updateOhlcLoop] using ih

theorem get_total_value_congr (p q : Portfolio) (prices : List (String × ℚ))
    (h1 : p.cash = q.cash) (h2 : p.positions = q.positions) :
    p.get_total_value prices = q.get_total_value prices := by
  unfold Portfolio.get_total_value
  rw [h1, h2]

theorem get_weights_congr (p q : Portfolio) (prices : List (String × ℚ))
    (h1 : p.cash = q.cash) (h2 : p.positions = q.positions) :
    p.get_weights prices = q.get_weights prices := by
  unfold Portfolio.get_weights
  rw [get_total_value_congr p q prices h1 h2, h2]

theorem runLoopAux_signal_error (strat : Strategy) (data : Frame) (c0 : ℚ)
    (len : ℕ) :
    ∀ (l : List (ℕ × ℤ)) (st : LoopState),
      st.port.cash = c0 →
      st.port.positions = (Portfolio.init c0 strat.univ).positions →
      (∀ p ∈ l, p.1 < len) →
      (l.any (fun it => it.1 ≠ 0 &&
        (strat.onData (data.rowOf it.2)
          (initialBarView strat c0 (data.rowOf it.2))).isSome)) = true →
      runLoopAux Backtester.new strat data len l st = .error .noneScheduleAttr := by
  intro l
  induction l with
  | nil => intro st _ _ _ hany; simp at hany
  | cons p rest ih =>
    intro st hcash hpos hlt hany
    obtain ⟨i, t⟩ := p
    by_cases hi : i = 0
    · subst hi
      simp only [runLoopAux, if_pos rfl]
      refine ih st hcash hpos (fun p hp => hlt p (List.mem_cons_of_mem _ hp)) ?_
      simpa using hany
    · simp only [runLoopAux, if_neg hi]
      have hposmap : st.port.positions = strat.univ.map (fun s => (s, (0 : ℚ))) := by
        rw [hpos]; rfl
      have hupd : st.port.update_ohlc (data.rowOf t) =
          .ok { op := st.port.cash, hi := st.port.cash, lo := st.port.cash,
                cl := st.port.cash } := by
        unfold Portfolio.update_ohlc
        rw [hposmap]
        exact updateOhlcLoop_zeros _ _ _
      rw [hupd]
      dsimp only
      have hview :
          ({ equity := ({ st.port with equity_curve := st.port.equity_curve ++
                [(t, st.port.get_total_value (getPrices (data.rowOf t) strat.univ))] } :
                Portfolio).get_total_value (getPrices (data.rowOf t) strat.univ),
             cash := st.port.cash,
             positions := st.port.positions,
             weights := ({ st.port with equity_curve := st.port.equity_curve ++
                [(t, st.port.get_total_value (getPrices (data.rowOf t) strat.univ))] } :
                Portfolio).get_weights (getPrices (data.rowOf t) strat.univ) } :
            PortfolioView) =
          initialBarView strat c0 (data.rowOf t) := by
        unfold initialBarView
        have e1 : ({ st.port with equity_curve := st.port.equity_curve ++
              [(t, st.port.get_total_value (getPrices (data.rowOf t) strat.univ))] } :
              Portfolio).get_total_value (getPrices (data.rowOf t) strat.univ) =
            (Portfolio.init c0 strat.univ).get_total_value
              (getPrices (data.rowOf t) strat.univ) :=
          get_total_value_congr _ _ _ hcash hpos
        have e2 : ({ st.port with equity_curve := st.port.equity_curve ++
              [(t, st.port.get_total_value (getPrices (data.rowOf t) strat.univ))] } :
              Portfolio).get_weights (getPrices (data.rowOf t) strat.univ) =
            (Portfolio.init c0 strat.univ).get_weights
              (getPrices (data.rowOf t) strat.univ) :=
          get_weights_congr _ _ _ hcash hpos
        rw [e1, e2, hcash, hpos]
        rfl
      rw [hview]
      cases hsig : strat.onData (data.rowOf t) (initialBarView strat c0 (data.rowOf t)) with
      | none =>
          dsimp only
          refine ih _ hcash hpos (fun p hp => hlt p (List.mem_cons_of_mem _ hp)) ?_
          simp only [List.any_cons, hsig, Option.isSome_none, Bool.and_false,
            Bool.false_or] at hany
          exact hany
      | some tw =>
          dsimp only
          have hilen : i < len := hlt (i, t) (List.mem_cons_self _ _)
          rw [if_neg (by omega : ¬ i ≥ len)]
          rfl

/-- C2: whenever the strategy emits a non-None signal at some bar after the
first, the container entrypoint path — whose fresh `Backtester()` has no
market calendar and no schedule cache — aborts in `_get_trade_timestamp`
before any trade, and `execute_backtest` returns the zeroed error result
with empty trades, empty equity curve and a non-empty errors list. -/
theorem C2_container_signal_crash (strat : Strategy) (data : Frame) (c0 : ℚ)
    (h : hitsSignal strat data c0 = true) :
    executeBacktest strat data c0 = errorContainerResult .noneScheduleAttr ∧
    (executeBacktest strat data c0).trades = [] ∧
    (executeBacktest strat data c0).equity_curve = [] ∧
    (executeBacktest strat data c0).errors ≠ [] := by
  have hrun : runLoop Backtester.new strat data (Portfolio.init c0 strat.univ)
      strat.cadence = .error .noneScheduleAttr := by
    unfold runLoop
    apply runLoopAux_signal_error strat data c0 _ _ _ rfl rfl
    · intro p hp
      have := List.mem_enum_iff_getElem?.mp hp
      have := List.getElem?_eq_some.mp this
      exact this.1
    · exact h
  have hres : executeBacktest strat data c0 = errorContainerResult .noneScheduleAttr := by
    simp only [executeBacktest]
    rw [hrun]
  refine ⟨hres, ?_, ?_, ?_⟩ <;> rw [hres] <;> simp [errorContainerResult]

theorem C2_witness :
    executeBacktest stratAlways frameTwo 100 = errorContainerResult .noneScheduleAttr ∧
    (executeBacktest stratAlways frameTwo 100).trades = [] ∧
    (executeBacktest stratAlways frameTwo 100).equity_curve = [] ∧
    (executeBacktest stratAlways frameTwo 100).errors ≠ [] :=
  C2_container_signal_crash stratAlways frameTwo 100 (by rfl)

/-- C3 counterexample: a buy-and-hold run over three bars ends with 100
shares of A still open and no Sell trade at all — the loop performs no
final-bar liquidation, and `final_positions` keeps the non-zero entry. -/
theorem C3_counterexample :
    ((runLoop btSched stratBuyOnce frameThree (Portfolio.init 1000 ["A"]) {}).map
      (fun st => (alookup st.port.positions "A",
        st.trades.countP (fun tr => tr.action = OrderType.SELL)))) =
      .ok (some 100, 0) := by
  norm_num [runLoop, runLoopAux, uniqueFirst, btSched, stratBuyOnce, frameThree,
    Portfolio.init, Portfolio.update_ohlc, updateOhlcLoop, getPrices, alookup,
    Portfolio.get_total_value, Portfolio.get_weights, Portfolio.rebalance,
    computeTargets, rebalanceLoop, getTradeTimestamp, fallbackSchedule,
    aupdate, barTen, List.enum, List.enumFrom, List.filter, Except.map,
    List.countP, List.countP.go]
  decide

/-- C3 (amended): after the loop over the last timestamp nothing is
liquidated: `execute_backtest` reports `final_positions` exactly as the
loop leaves them — non-zero holdings included — appends no trades, and
values the remaining positions at the last bar's close prices. -/
theorem C3_no_final_liquidation (strat : Strategy) (data : Frame) (c0 : ℚ)
    (st : LoopState)
    (hrun : runLoop Backtester.new strat data (Portfolio.init c0 strat.univ)
      strat.cadence = .ok st)
    (t : ℤ) (hlast : data.timestamps.getLast? = some t) :
    (executeBacktest strat data c0).final_positions = st.port.positions ∧
    (executeBacktest strat data c0).trades = st.trades ∧
    (executeBacktest strat data c0).final_value =
      st.port.cash + (st.port.positions.map (fun sq =>
        sq.2 * ((alookup (getPrices (data.rowOf t) strat.univ) sq.1).getD 0))).sum := by
  simp only [executeBacktest]
  rw [hrun]
  dsimp only
  unfold getFinalPrices
  rw [hlast]
  dsimp only
  exact ⟨rfl, rfl, rfl⟩

theorem C3_witness :
    (executeBacktest stratNever frameThree 1000).final_positions =
      stHold.port.positions ∧
    (executeBacktest stratNever frameThree 1000).trades = stHold.trades ∧
    (executeBacktest stratNever frameThree 1000).final_value =
      stHold.port.cash + (stHold.port.positions.map (fun sq =>
        sq.2 * ((alookup (getPrices (frameThree.rowOf 3) stratNever.univ)
          sq.1).getD 0))).sum :=
  C3_no_final_liquidation stratNever frameThree 1000 stHold
    (by norm_num [runLoop, runLoopAux, uniqueFirst, stratNever, frameThree,
      Portfolio.init, Portfolio.update_ohlc, updateOhlcLoop, getPrices, alookup,
      Portfolio.get_total_value, Portfolio.get_weights, Backtester.new, barTen,
      List.enum, List.enumFrom, stHold, portHold, rowK])
    3 (by rfl)

theorem rebalanceLoop_curve (targets prices : List (String × ℚ)) (ts : ℤ) :
    ∀ (keys : List String) (port : Portfolio) (acc : List Trade),
      ((rebalanceLoop keys targets prices ts port acc).1).equity_curve =
        port.equity_curve := by
  intro keys
  induction keys with
  | nil => intro port acc; rfl
  | cons k rest ih =>
    intro port acc
    simp only [rebalanceLoop]
    cases hk : alookup prices k with
    | none => rfl
    | some price =>
        dsimp only
        split_ifs <;> rw [ih]

theorem rebalance_curve (p : Portfolio) (tw prices : List (String × ℚ)) (ts : ℤ) :
    ((p.rebalance tw prices ts).1).equity_curve = p.equity_curve := by
  simp only [Portfolio.rebalance]
  split_ifs with h
  · rfl
  · cases hct : computeTargets tw prices (p.get_total_value prices) with
    | error e => rfl
    | ok targets => exact rebalanceLoop_curve targets prices ts _ p []

theorem runLoopAux_provenance (bt : Backtester) (strat : Strategy) (data : Frame)
    (len : ℕ) :
    ∀ (l : List (ℕ × ℤ)) (st0 st : LoopState),
      runLoopAux bt strat data len l st0 = .ok st →
      (∀ x ∈ st.calls, x ∈ st0.calls ∨ ∃ p ∈ l, p.1 ≠ 0 ∧ p.2 = x) ∧
      (∀ x ∈ st.port.equity_curve.map Prod.fst,
        x ∈ st0.port.equity_curve.map Prod.fst ∨ ∃ p ∈ l, p.1 ≠ 0 ∧ p.2 = x) ∧
      (∀ x ∈ st.ohlc.map Prod.fst,
        x ∈ st0.ohlc.map Prod.fst ∨ ∃ p ∈ l, p.1 ≠ 0 ∧ p.2 = x) := by
  intro l
  induction l with
  | nil =>
    intro st0 st h
    simp only [runLoopAux] at h
    injection h with h
    subst h
    exact ⟨fun x hx => .inl hx, fun x hx => .inl hx, fun x hx => .inl hx⟩
  | cons hd rest ih =>
    intro st0 st h
    obtain ⟨i, t⟩ := hd
    by_cases hi : i = 0
    · subst hi
      simp only [runLoopAux, if_pos rfl] at h
      obtain ⟨h1, h2, h3⟩ := ih st0 st h
      refine ⟨fun x hx => ?_, fun x hx => ?_, fun x hx => ?_⟩
      · rcases h1 x hx with ha | ⟨p, hp, hne, he⟩
        · exact .inl ha
        · exact .inr ⟨p, List.mem_cons_of_mem _ hp, hne, he⟩
      · rcases h2 x hx with ha | ⟨p, hp, hne, he⟩
        · exact .inl ha
        · exact .inr ⟨p, List.mem_cons_of_mem _ hp, hne, he⟩
      · rcases h3 x hx with ha | ⟨p, hp, hne, he⟩
        · exact .inl ha
        · exact .inr ⟨p, List.mem_cons_of_mem _ hp, hne, he⟩
    · have step : ∀ {x : ℤ} (base : List ℤ), x ∈ base ++ [t] →
          x ∈ base ∨ ∃ p ∈ (i, t) :: rest, p.1 ≠ 0 ∧ p.2 = x := by
        intro x base hx
        rcases List.mem_append.mp hx with hb | hx
        · exact .inl hb
        · exact .inr ⟨(i, t), List.mem_cons_self _ _, hi,
            (List.mem_singleton.mp hx).symm⟩
      simp only [runLoopAux, if_neg hi] at h
      split at h
      · exact absurd h (by simp)
      · split at h
        · -- on_data returned None: recurse on the updated state
          obtain ⟨h1, h2, h3⟩ := ih _ st h
          refine ⟨fun x hx => ?_, fun x hx => ?_, fun x hx => ?_⟩
          · rcases h1 x hx with hx1 | ⟨p, hp, hne, he⟩
            · exact step st0.calls hx1
            · exact .inr ⟨p, List.mem_cons_of_mem _ hp, hne, he⟩
          · rcases h2 x hx with hx1 | ⟨p, hp, hne, he⟩
            · rw [List.map_append] at hx1
              exact step _ hx1
            · exact .inr ⟨p, List.mem_cons_of_mem _ hp, hne, he⟩
          · rcases h3 x hx with hx1 | ⟨p, hp, hne, he⟩
            · rw [List.map_append] at hx1
              exact step _ hx1
            · exact .inr ⟨p, List.mem_cons_of_mem _ hp, hne, he⟩
        · -- on_data returned a signal
          rename_i tw hsig
          split at h
          · -- break branch
            injection h with h
            subst h
            refine ⟨fun x hx => ?_, fun x hx => ?_, fun x hx => ?_⟩
            · exact step st0.calls hx
            · rw [List.map_append] at hx
              exact step _ hx
            · rw [List.map_append] at hx
              exact step _ hx
          · split at h
            · exact absurd h (by simp)
            · rename_i trade_ts heq2
              split at h
              · exact absurd h (by simp)
              · rename_i port2 new_trades heq3
                have hcurve : port2.equity_curve =
                    st0.port.equity_curve ++
                      [(t, st0.port.get_total_value
                        (getPrices (data.rowOf t) strat.univ))] := by
                  have hr := rebalance_curve
                    ({ st0.port with
                        equity_curve := st0.port.equity_curve ++
                          [(t, st0.port.get_total_value
                            (getPrices (data.rowOf t) strat.univ))] } : Portfolio)
                    tw (getPrices (data.rowOf t) strat.univ) trade_ts
                  rw [heq3] at hr
                  exact hr
                obtain ⟨h1, h2, h3⟩ := ih _ st h
                refine ⟨fun x hx => ?_, fun x hx => ?_, fun x hx => ?_⟩
                · rcases h1 x hx with hx1 | ⟨p, hp, hne, he⟩
                  · exact step st0.calls hx1
                  · exact .inr ⟨p, List.mem_cons_of_mem _ hp, hne, he⟩
                · rcases h2 x hx with hx1 | ⟨p, hp, hne, he⟩
                  · rw [hcurve, List.map_append] at hx1
                    exact step _ hx1
                  · exact .inr ⟨p, List.mem_cons_of_mem _ hp, hne, he⟩
                · rcases h3 x hx with hx1 | ⟨p, hp, hne, he⟩
                  · rw [List.map_append] at hx1
                    exact step _ hx1
                  · exact .inr ⟨p, List.mem_cons_of_mem _ hp, hne, he⟩

theorem head_not_in_enum_tail (l : List ℤ) (hnd : l.Nodup) (t0 : ℤ)
    (hh : l.head? = some t0) :
    ¬ ∃ p ∈ l.enum, p.1 ≠ 0 ∧ p.2 = t0 := by
  rintro ⟨⟨i, x⟩, hp, hi, hx⟩
  have hget := List.mem_enum_iff_getElem?.mp hp
  cases l with
  | nil => simp at hh
  | cons a tl =>
    have ha : a = t0 := by simpa using hh
    obtain ⟨n, rfl⟩ : ∃ n, i = n + 1 := ⟨i - 1, by omega⟩
    rw [List.getElem?_cons_succ] at hget
    obtain ⟨hlt2, heq2⟩ := List.getElem?_eq_some.mp hget
    have hmem : t0 ∈ tl := by
      rw [← hx]
      exact heq2 ▸ List.getElem_mem hlt2
    rw [ha] at hnd
    exact (List.nodup_cons.mp hnd).1 hmem

theorem get_total_value_init (c0 : ℚ) (syms : List String)
    (prices : List (String × ℚ)) :
    (Portfolio.init c0 syms).get_total_value prices = c0 := by
  unfold Portfolio.get_total_value Portfolio.init
  have h : ∀ x ∈ (syms.map (fun s => (s, (0 : ℚ)))).map
      (fun sq => sq.2 * ((alookup prices sq.1).getD 0)), x = 0 := by
    intro x hx
    simp only [List.map_map, List.mem_map, Function.comp] at hx
    obtain ⟨s, _, rfl⟩ := hx
    simp
  rw [List.sum_eq_zero h, add_zero]

theorem runLoop_singleton (bt : Backtester) (strat : Strategy) (data : Frame)
    (port : Portfolio) (cad : Cadence) (t0 : ℤ) (h : data.timestamps = [t0]) :
    runLoop bt strat data port cad =
      .ok { port := port, trades := [], ohlc := [], calls := [] } := by
  unfold runLoop
  rw [h]
  rfl

/-- C9: the loop skips the first timeline timestamp entirely — `on_data`
is never invoked there and neither the equity curve nor the portfolio OHLC
records an entry for it — and a frame with exactly one timestamp yields an
empty equity curve, which the output validator then rejects. -/
theorem C9_first_bar_skipped (bt : Backtester) (strat : Strategy) (data : Frame)
    (c0 : ℚ) (cad : Cadence) (st : LoopState)
    (hrun : runLoop bt strat data (Portfolio.init c0 strat.univ) cad = .ok st)
    (hc : 0 ≤ c0) :
    (∀ t0, (uniqueFirst [] data.timestamps).head? = some t0 →
      t0 ∉ st.calls ∧ t0 ∉ st.port.equity_curve.map Prod.fst ∧
        t0 ∉ st.ohlc.map Prod.fst) ∧
    (∀ t0, data.timestamps = [t0] →
      (executeBacktest strat data c0).equity_curve = [] ∧
      outputValidate (toValidationInput (executeBacktest strat data c0).errors
        (executeBacktest strat data c0).final_value
        (executeBacktest strat data c0).equity_curve
        (executeBacktest strat data c0).trades) =
        .error "Empty equity curve - execution produced no data") := by
  constructor
  · intro t0 hh
    unfold runLoop at hrun
    obtain ⟨h1, h2, h3⟩ := runLoopAux_provenance bt strat data _ _ _ _ hrun
    have hnd := uniqueFirst_nodup ([] : List ℤ) data.timestamps
    have hno := head_not_in_enum_tail _ hnd t0 hh
    refine ⟨fun hx => ?_, fun hx => ?_, fun hx => ?_⟩
    · rcases h1 t0 hx with h0 | hex
      · simp at h0
      · exact hno hex
    · rcases h2 t0 hx with h0 | hex
      · simp [Portfolio.init] at h0
      · exact hno hex
    · rcases h3 t0 hx with h0 | hex
      · simp at h0
      · exact hno hex
  · intro t0 ht
    have hone := runLoop_singleton Backtester.new strat data
      (Portfolio.init c0 strat.univ) strat.cadence t0 ht
    constructor
    · simp only [executeBacktest]
      rw [hone]
      dsimp only
      unfold getFinalPrices
      rw [ht]
      rfl
    · simp only [executeBacktest]
      rw [hone]
      dsimp only
      unfold getFinalPrices
      rw [ht]
      show outputValidate (toValidationInput []
        ((Portfolio.init c0 strat.univ).get_total_value
          (getPrices (data.rowOf t0) strat.univ)) [] []) = _
      rw [get_total_value_init]
      simp [toValidationInput, outputValidate, equityCurveCheck, tradesCheck,
        qIsNaN, qIsInf, not_lt.mpr hc]

theorem C9_witness :
    ((7 : ℤ) ∉ stOne.calls ∧
      (7 : ℤ) ∉ stOne.port.equity_curve.map Prod.fst ∧
      (7 : ℤ) ∉ stOne.ohlc.map Prod.fst) ∧
    ((executeBacktest stratNever frameOne 1000).equity_curve = [] ∧
      outputValidate (toValidationInput
        (executeBacktest stratNever frameOne 1000).errors
        (executeBacktest stratNever frameOne 1000).final_value
        (executeBacktest stratNever frameOne 1000).equity_curve
        (executeBacktest stratNever frameOne 1000).trades) =
        .error "Empty equity curve - execution produced no data") := by
  have h := C9_first_bar_skipped Backtester.new stratNever frameOne 1000 {}
    stOne rfl (by norm_num)
  exact ⟨h.1 7 rfl, h.2 7 rfl⟩

theorem snd_mem_of_mem_enum {α : Type} {l : List α} {p : ℕ × α}
    (hp : p ∈ l.enum) : p.2 ∈ l := by
  have h := List.mem_enum_iff_getElem?.mp hp
  obtain ⟨h1, h2⟩ := List.getElem?_eq_some.mp h
  exact h2 ▸ List.getElem_mem h1

theorem mem_enum_of_mem {α : Type} {l : List α} {v : α} (hv : v ∈ l) :
    ∃ i, (i, v) ∈ l.enum := by
  obtain ⟨i, hi, he⟩ := List.mem_iff_getElem.mp hv
  exact ⟨i, List.mem_enum_iff_getElem?.mpr (List.getElem?_eq_some.mpr ⟨hi, he⟩)⟩

theorem extractMetadata_skip (pre : List PyClassDef) (l : List PyClassDef)
    (hpre : ∀ c ∈ pre, findBinding c.body "universe" = none) :
    extractMetadata (pre ++ l) = extractMetadata l := by
  induction pre with
  | nil => rfl
  | cons c rest ih =>
    have hc := hpre c (List.mem_cons_self _ _)
    simp only [List.cons_append, extractMetadata, hc]
    exact ih (fun d hd => hpre d (List.mem_cons_of_mem _ hd))

theorem cleanPass_all_valid (l : List (ℕ × PyVal)) :
    ∀ (cleaned seen errs : List String),
      (∀ p ∈ l, validTicker p.2 = true) →
      cleanPass l cleaned seen errs =
        (cleaned ++ uniqueFirst seen (normalizedStrings (l.map Prod.snd)), errs) := by
  induction l with
  | nil =>
    intro cleaned seen errs _
    simp [cleanPass, uniqueFirst, normalizedStrings]
  | cons hd rest ih =>
    intro cleaned seen errs hv
    obtain ⟨i, item⟩ := hd
    have hvi := hv (i, item) (List.mem_cons_self _ _)
    cases item with
    | vstr s =>
        simp only [validTicker, Bool.and_eq_true, decide_eq_true_eq] at hvi
        obtain ⟨hne, hle⟩ := hvi
        simp only [cleanPass]
        rw [if_neg hne, if_neg (not_lt.mpr hle)]
        by_cases hmem : normalizeTicker s ∈ seen
        · rw [if_pos hmem,
            ih cleaned seen errs (fun p hp => hv p (List.mem_cons_of_mem _ hp))]
          simp [normalizedStrings, uniqueFirst, hmem]
        · rw [if_neg hmem,
            ih (cleaned ++ [normalizeTicker s]) (normalizeTicker s :: seen) errs
              (fun p hp => hv p (List.mem_cons_of_mem _ hp))]
          simp [normalizedStrings, uniqueFirst, hmem]
    | vint n => simp [validTicker] at hvi
    | vbool b => simp [validTicker] at hvi
    | vnone => simp [validTicker] at hvi
    | vlist l2 => simp [validTicker] at hvi
    | vtuple l2 => simp [validTicker] at hvi

theorem cleanPass_invalid (l : List (ℕ × PyVal)) :
    ∀ (cleaned seen errs : List String),
      (∃ p ∈ l, validTicker p.2 = false) →
      (cleanPass l cleaned seen errs).2 ≠ [] := by
  induction l with
  | nil => intro _ _ _ h; simp at h
  | cons hd rest ih =>
    intro cleaned seen errs hex
    obtain ⟨i, item⟩ := hd
    cases item with
    | vstr s =>
        simp only [cleanPass]
        by_cases h1 : normalizeTicker s = ""
        · rw [if_pos h1]
          exact cleanPass_errs_ne rest _ _ _ (by simp)
        · rw [if_neg h1]
          by_cases h2 : (normalizeTicker s).length > MAX_TICKER_LEN
          · rw [if_pos h2]
            exact cleanPass_errs_ne rest _ _ _ (by simp)
          · rw [if_neg h2]
            have hrest : ∃ p ∈ rest, validTicker p.2 = false := by
              rcases hex with ⟨p, hp, hpv⟩
              rcases List.mem_cons.mp hp with rfl | hp2
              · exfalso
                simp [validTicker, h1, not_lt.mp h2] at hpv
              · exact ⟨p, hp2, hpv⟩
            by_cases hmem : normalizeTicker s ∈ seen
            · rw [if_pos hmem]; exact ih _ _ _ hrest
            · rw [if_neg hmem]; exact ih _ _ _ hrest
    | vint n =>
        simp only [cleanPass]
        exact cleanPass_errs_ne rest _ _ _ (by simp)
    | vbool b =>
        simp only [cleanPass]
        exact cleanPass_errs_ne rest _ _ _ (by simp)
    | vnone =>
        simp only [cleanPass]
        exact cleanPass_errs_ne rest _ _ _ (by simp)
    | vlist l2 =>
        simp only [cleanPass]
        exact cleanPass_errs_ne rest _ _ _ (by simp)
    | vtuple l2 =>
        simp only [cleanPass]
        exact cleanPass_errs_ne rest _ _ _ (by simp)

/-- C6: on the first class binding `universe` (with no `cadence` binding),
the extractor returns the list-literal universe normalized (uppercased,
trimmed) and deduplicated preserving first occurrences, and fails exactly
when the list is empty, an element is not a string, a normalized ticker is
empty or longer than 12 characters, the deduplicated list exceeds 200
entries, or the bound value does not evaluate as a literal (a variable,
call, attribute access, or concatenation). -/
theorem C6_extract_metadata_universe
    (pre post : List PyClassDef) (cls : PyClassDef) (ue : PyExpr)
    (hpre : ∀ c ∈ pre, findBinding c.body "universe" = none)
    (hu : findBinding cls.body "universe" = some ue)
    (hnc : findBinding cls.body "cadence" = none) :
    (∀ es vs, ue = .listLit es → literalEvalList es = some vs →
      ((vs ≠ [] ∧ (∀ v ∈ vs, validTicker v = true) ∧
          (uniqueFirst [] (normalizedStrings vs)).length ≤ MAX_UNIVERSE_SIZE) →
        extractMetadata (pre ++ cls :: post) =
          .ok { univ := uniqueFirst [] (normalizedStrings vs), cadence := {} }) ∧
      (vs = [] → (extractMetadata (pre ++ cls :: post)).isOk = false) ∧
      ((∃ v ∈ vs, validTicker v = false) →
        (extractMetadata (pre ++ cls :: post)).isOk = false) ∧
      ((∀ v ∈ vs, validTicker v = true) →
        (uniqueFirst [] (normalizedStrings vs)).length > MAX_UNIVERSE_SIZE →
        (extractMetadata (pre ++ cls :: post)).isOk = false)) ∧
    (∀ es, ue = .listLit es → literalEvalList es = none →
      (extractMetadata (pre ++ cls :: post)).isOk = false) ∧
    (nonLiteralUniverse ue = true →
      (extractMetadata (pre ++ cls :: post)).isOk = false) := by
  have hext : ∀ u, parseCleanUniverse ue cls.cname = .ok u →
      extractMetadata (pre ++ cls :: post) = .ok { univ := u, cadence := {} } := by
    intro u hpc
    rw [extractMetadata_skip pre _ hpre]
    simp [extractMetadata, hu, hpc, hnc]
  have hext2 : ∀ e, parseCleanUniverse ue cls.cname = .error e →
      extractMetadata (pre ++ cls :: post) = .error e := by
    intro e hpc
    rw [extractMetadata_skip pre _ hpre]
    simp [extractMetadata, hu, hpc]
  refine ⟨?_, ?_, ?_⟩
  · intro es vs hes hev
    subst hes
    have hle : literalEval (.listLit es) = some (.vlist vs) := by
      simp only [literalEval]
      rw [hev]
      rfl
    refine ⟨?_, ?_, ?_, ?_⟩
    · rintro ⟨hvs, hvalid, hsize⟩
      have hv2 : ∀ p ∈ vs.enum, validTicker p.2 = true :=
        fun p hp => hvalid p.2 (snd_mem_of_mem_enum hp)
      have hpc : parseCleanUniverse (.listLit es) cls.cname =
          .ok (uniqueFirst [] (normalizedStrings vs)) := by
        simp only [parseCleanUniverse]
        rw [hle]
        dsimp only
        rw [if_neg (fun h0 => hvs (List.length_eq_zero.mp h0))]
        rw [cleanPass_all_valid vs.enum [] [] [] hv2, List.enum_map_snd]
        simp [not_lt.mpr hsize]
      exact hext _ hpc
    · intro hvs0
      subst hvs0
      have hpc : parseCleanUniverse (.listLit es) cls.cname =
          .error (.emptyUniverse cls.cname) := by
        simp only [parseCleanUniverse]
        rw [hle]
        rfl
      rw [hext2 _ hpc]
      rfl
    · intro hex
      have hvs : vs ≠ [] := by
        rintro rfl
        obtain ⟨v, hv, _⟩ := hex
        simp at hv
      have herr : (cleanPass vs.enum [] [] []).2 ≠ [] := by
        apply cleanPass_invalid
        obtain ⟨v, hv, hvf⟩ := hex
        obtain ⟨i, hi⟩ := mem_enum_of_mem hv
        exact ⟨(i, v), hi, hvf⟩
      cases hcp : cleanPass vs.enum [] [] [] with
      | mk cl er =>
        have her : er ≠ [] := by rw [hcp] at herr; exact herr
        have hpc : parseCleanUniverse (.listLit es) cls.cname =
            .error (.invalidTickers cls.cname er) := by
          simp only [parseCleanUniverse]
          rw [hle]
          dsimp only
          rw [if_neg (fun h0 => hvs (List.length_eq_zero.mp h0)), hcp]
          simp [her]
        rw [hext2 _ hpc]
        rfl
    · intro hvalid hbig
      have hv2 : ∀ p ∈ vs.enum, validTicker p.2 = true :=
        fun p hp => hvalid p.2 (snd_mem_of_mem_enum hp)
      have hvs : vs ≠ [] := by
        rintro rfl
        simp [normalizedStrings, uniqueFirst, MAX_UNIVERSE_SIZE] at hbig
      have hpc : parseCleanUniverse (.listLit es) cls.cname =
          .error (.tooManyTickers cls.cname
            (uniqueFirst [] (normalizedStrings vs)).length) := by
        simp only [parseCleanUniverse]
        rw [hle]
        dsimp only
        rw [if_neg (fun h0 => hvs (List.length_eq_zero.mp h0))]
        rw [cleanPass_all_valid vs.enum [] [] [] hv2, List.enum_map_snd]
        simp [hbig]
      rw [hext2 _ hpc]
      rfl
  · intro es hes hev
    subst hes
    have hpc : parseCleanUniverse (.listLit es) cls.cname =
        .error (.notListLiteral cls.cname) := by
      simp only [parseCleanUniverse, literalEval]
      rw [hev]
      rfl
    rw [hext2 _ hpc]
    rfl
  · intro hnl
    have hpc : parseCleanUniverse ue cls.cname =
        .error (.notListLiteral cls.cname) := by
      cases ue <;> simp_all [nonLiteralUniverse, parseCleanUniverse, literalEval]
    rw [hext2 _ hpc]
    rfl

theorem C6_witness :
    extractMetadata [{ cname := "S"
                       body := [.assign [.nameTarget "universe"]
                         (.listLit [.strLit "spy", .strLit " SPY ", .strLit "ief"])] }] =
      .ok { univ := ["SPY", "IEF"], cadence := {} } := by
  have h := (C6_extract_metadata_universe [] []
    { cname := "S"
      body := [.assign [.nameTarget "universe"]
        (.listLit [.strLit "spy", .strLit " SPY ", .strLit "ief"])] }
    (.listLit [.strLit "spy", .strLit " SPY ", .strLit "ief"])
    (by simp) rfl rfl).1
    [.strLit "spy", .strLit " SPY ", .strLit "ief"]
    [.vstr "spy", .vstr " SPY ", .vstr "ief"] rfl rfl
  have h2 := h.1 ⟨by simp, by decide, by decide⟩
  have heq : uniqueFirst [] (normalizedStrings
      [.vstr "spy", .vstr " SPY ", .vstr "ief"]) = ["SPY", "IEF"] := by decide
  rw [heq] at h2
  exact h2
